import Mathlib

set_option maxHeartbeats 2000000

/-!
Verification model of `Cython/CodeWriter.py`: the dispatch-based tree
serializer (DeclarationWriter / CodeWriter / PxdWriter) that turns a Cython
code tree back into source lines.

The Python classes are embedded shallowly:
* `LinesResult` and the writer state become Lean structures;
* each `visit_XxxNode` method becomes an arm of `cwVisit` (the full
  `CodeWriter` rule set, which inherits every `DeclarationWriter` rule);
* raised exceptions (`AssertionError`, `Exception("Not implemented yet")`,
  `KeyError`, `IndexError`) become `Except.error`;
* Python's `"%d"` formatting is embedded as `decRepr` (decimal digits).

Modelled from the spec: the dispatch resolution itself lives in
`Cython/Compiler/Visitor.py` (`TreeVisitor`), which is not part of this
repository's sources here; per the spec it resolves the most specific rule for
a node's concrete kind, and a kind with no rule at any level of the hierarchy
reaches `visit_Node`.  We model that by a total match over the node kinds that
do have rules, plus one constructor `unhandledNode` standing for every concrete
kind with no rule anywhere, whose arm is the `visit_Node` fallback.
-/

namespace CodeWriterModel

/-- Output buffer (`LinesResult`): committed lines plus one in-progress line. -/
structure LinesResult where
  lines : List String
  s : String
deriving Repr, DecidableEq

/-- Buffer `LinesResult.put`: append to the in-progress line. -/
def LinesResult.put (r : LinesResult) (t : String) : LinesResult :=
  { r with s := r.s ++ t }

/-- Buffer `LinesResult.newline`: commit the in-progress line (even if empty). -/
def LinesResult.newline (r : LinesResult) : LinesResult :=
  { lines := r.lines ++ [r.s], s := "" }

/-- Buffer `LinesResult.putline`. -/
def LinesResult.putline (r : LinesResult) (t : String) : LinesResult :=
  (r.put t).newline

/-- The mutable state of a `DeclarationWriter`/`CodeWriter` instance:
`self.result`, `self.numindents`, `self.tempnames`, `self.tempblockindex`.
`tempnames` (a Python dict keyed by node identity) is an association list
keyed by an opaque handle id; insertion prepends, lookup takes the most
recent binding, matching dict overwrite semantics. -/
structure WState where
  result : LinesResult
  numindents : Int
  tempnames : List (Nat × String)
  tempblockindex : Nat
deriving Repr, DecidableEq

/-- The `DeclarationWriter.indent_string` unit. -/
def indent_string : String := "    "

/-- Python `indent_string * numindents` (empty for non-positive counts). -/
def indentOf (n : Int) : String := String.join (List.replicate n.toNat indent_string)

/-- Python `t * n` string repetition. -/
def strRepeat (t : String) (n : Nat) : String := String.join (List.replicate n t)

def WState.indent (w : WState) : WState := { w with numindents := w.numindents + 1 }

def WState.dedent (w : WState) : WState := { w with numindents := w.numindents - 1 }

def WState.put (w : WState) (t : String) : WState := { w with result := w.result.put t }

def WState.startline (w : WState) (t : String) : WState :=
  w.put (indentOf w.numindents ++ t)

def WState.putline (w : WState) (t : String) : WState :=
  { w with result := w.result.putline (indentOf w.numindents ++ t) }

def WState.endline (w : WState) (t : String) : WState :=
  { w with result := w.result.putline t }

def WState.line (w : WState) (t : String) : WState := (w.startline t).endline ""

/-- Fresh writer state (`DeclarationWriter.__init__` with `result = None`). -/
def initialState : WState :=
  { result := { lines := [], s := "" }, numindents := 0, tempnames := [], tempblockindex := 0 }

/-- Python dict assignment `d[k] = v` (later bindings shadow earlier ones). -/
def dictInsert (tn : List (Nat × String)) (k : Nat) (v : String) : List (Nat × String) :=
  (k, v) :: tn

/-- Python dict lookup `d[k]` (None-free: `none` means `KeyError`). -/
def dictGet (tn : List (Nat × String)) (k : Nat) : Option String :=
  (tn.find? (fun p => p.1 == k)).map (fun p => p.2)

/-- Decimal digit list of a natural number, most significant first:
the embedding of Python's `"%d"` format directive. -/
def decDigits (n : Nat) : List Char :=
  if h : n < 10 then [Nat.digitChar n]
  else decDigits (n / 10) ++ [Nat.digitChar (n % 10)]
decreasing_by
  exact Nat.div_lt_self (by omega) (by omega)

/-- Python `"%d" % n`. -/
def decRepr (n : Nat) : String := ⟨decDigits n⟩

/-- Python `"$%d_%d" % (self.tempblockindex, idx)` from `visit_TempsBlockNode`. -/
def tempName (blk idx : Nat) : String := "$" ++ decRepr blk ++ "_" ++ decRepr idx

/-- The loop in `visit_TempsBlockNode`:
`for handle in node.temps: self.tempnames[handle] = "$%d_%d" % (self.tempblockindex, idx); idx += 1`. -/
def assignTemps (tn : List (Nat × String)) (blk : Nat) (idx : Nat) :
    List Nat → List (Nat × String)
  | [] => tn
  | h :: rest => assignTemps (dictInsert tn h (tempName blk idx)) blk (idx + 1) rest

/-- Python truthiness of an optional string (`None` and `""` are falsy). -/
def cnameTruthy : Option String → Bool
  | none => false
  | some c => c != ""

mutual

/-- AST node kinds handled by `CodeWriter`; field names follow the Python
attributes.  `ForInStatNode`'s `iterator_sequence` stands for
`node.iterator.sequence` (the iterator wrapper is flattened).
`unhandledNode` stands for every concrete node kind without a rendering rule
at any level of the visitor hierarchy; its string is the node's repr text. -/
inductive Node where
  | ModuleNode (body : Node)
  | StatListNode (stats : List Node)
  | PassStatNode
  | ExprStatNode (expr : Node)
  | SingleAssignmentNode (lhs rhs : Node)
  | CascadedAssignmentNode (lhs_list : List Node) (rhs : Node)
  | ReturnStatNode (value : Option Node)
  | IfStatNode (if_clauses : List (Node × Node)) (else_clause : Option Node)
  | WhileStatNode (condition : Node) (body : Node) (else_clause : Option Node)
  | ForInStatNode (target : Node) (iterator_sequence : Node) (body : Node)
      (else_clause : Option Node)
  | TempsBlockNode (temps : List Nat) (body : Node)
  | BreakStatNode
  | ContinueStatNode
  | CFuncDefNode (modifiers : List String) (overridable : Bool) (visibility : String)
      (api : Bool) (declarator : Node) (body : Node)
  | CVarDefNode (base_type : Node) (declarators : List Node)
  | CNameDeclaratorNode (name : String) (default : Option Node)
  | CPtrDeclaratorNode (base : Node)
  | CFuncDeclaratorNode (base : Node) (args : List Node)
  | CArgDeclNode (base_type : Node) (declarator : Node) (default : Option Node)
  | CSimpleBaseTypeNode (name : Option String) (is_basic_c_type : Bool) (signed : Nat)
      (longness : Int) (is_self_arg : Bool)
  | CStructOrUnionDefNode (typedef_flag : Bool) (visibility : String) (packed : Bool)
      (kind : String) (name : String) (cname : Option String)
      (attributes : Option (List Node))
  | CEnumDefNode (name : String) (cname : Option String) (items : Option (List Node))
  | CEnumDefItemNode (name : String) (cname : Option String) (value : Option Node)
  | NameNode (name : String)
  | IntNode (value : String)
  | NoneNode
  | BoolNode (value : Bool)
  | NotNode (operand : Node)
  | BinopNode (operator : String) (operand1 operand2 : Node)
  | ListNode (args : List Node)
  | TupleNode (args : List Node)
  | PrimaryCmpNode (operator : String) (operand1 operand2 : Node)
      (cascade : Option CascadeNode)
  | TempRefNode (handle : Nat)
  | GeneralCallNode (function : Node) (positional_args : GCArgs)
      (keyword_args : Option Node) (starstar_arg : Option Node)
  | unhandledNode (reprText : String)

/-- Cython `CascadedCmpNode`: one link of a comparison cascade (`.operator`,
`.operand2`, `.cascade`). -/
inductive CascadeNode where
  | mk (operator : String) (operand2 : Node) (cascade : Option CascadeNode)

/-- Field `GeneralCallNode.positional_args`: either an `AsTupleNode` wrapper or a
plain list of argument nodes (the two shapes `visit_GeneralCallNode`
distinguishes with `isinstance(posarg, AsTupleNode)`). -/
inductive GCArgs where
  | asTuple (arg : Node)
  | plain (args : List Node)

end

/-- Attribute access `item.default` in `comma_separated_list`. -/
def Node.default : Node → Option Node
  | .CNameDeclaratorNode _ d => d
  | .CArgDeclNode _ _ d => d
  | _ => none

/-- Python `hasattr(node.target, "args")` in `visit_ForInStatNode`: among the
embedded kinds, list and tuple nodes are the ones carrying `.args`. -/
def Node.argsAttr : Node → Option (List Node)
  | .ListNode args => some args
  | .TupleNode args => some args
  | _ => none

/-- Attribute `node.base_type.is_self_arg`. -/
def Node.is_self_arg : Node → Bool
  | .CSimpleBaseTypeNode _ _ _ _ b => b
  | _ => false

/-- Attribute `node.base_type.name` (an optional string on base-type nodes). -/
def Node.nameOpt : Node → Option String
  | .CSimpleBaseTypeNode nm _ _ _ _ => nm
  | _ => none

/-- The header-line part of `visit_container_node`: `startline(decl)`,
optional ` name` and ` "cname"`, optional `extras`, `endline(':')`, `indent()`. -/
def containerHeader (s : WState) (decl name : String) (cname : Option String)
    (extras : String) : WState :=
  let s1 := s.startline decl
  let s2 := if name ≠ "" then
      (match cname with
       | some c => (((s1.put " ").put name).put (" \"" ++ c ++ "\""))
       | none => (s1.put " ").put name)
    else s1
  let s3 := if extras ≠ "" then s2.put extras else s2
  (s3.endline ":").indent

/-- A node's `default` child is structurally smaller than the node. -/
theorem Node.sizeOf_default_lt : ∀ {item d : Node}, item.default = some d →
    sizeOf d < sizeOf item := by
  intro item d h
  cases item <;> simp [Node.default] at h
  case CNameDeclaratorNode name dflt =>
    subst h
    simp
    omega
  case CArgDeclNode bt decl dflt =>
    subst h
    simp
    omega

/-- A node's `.args` children list is structurally smaller than the node. -/
theorem Node.sizeOf_argsAttr_lt : ∀ {t : Node} {args : List Node},
    t.argsAttr = some args → sizeOf args < sizeOf t := by
  intro t args h
  cases t <;> simp [Node.argsAttr] at h
  all_goals subst h
  all_goals simp
  all_goals omega

mutual

/-- The `CodeWriter` rule set: each arm is the body of the corresponding
`visit_XxxNode` method of `DeclarationWriter`/`CodeWriter`.  The
`unhandledNode` arm is `DeclarationWriter.visit_Node`
(`raise AssertionError("Node not handled by serializer: %r" % node)`). -/
def cwVisit (s : WState) : Node → Except String WState
  | .ModuleNode body => cwVisit s body
  | .StatListNode stats =>
      if stats.length = 0 then .ok (s.line "pass")
      else visitList s stats
  | .PassStatNode => .ok ((s.startline "pass").endline "")
  | .ExprStatNode expr => do
      let s1 ← cwVisit (s.startline "") expr
      .ok (s1.endline "")
  | .SingleAssignmentNode lhs rhs => do
      let s1 ← cwVisit (s.startline "") lhs
      let s2 ← cwVisit (s1.put " = ") rhs
      .ok (s2.endline "")
  | .CascadedAssignmentNode lhs_list rhs => do
      let s1 ← visitAssignTargets (s.startline "") lhs_list
      let s2 ← cwVisit s1 rhs
      .ok (s2.endline "")
  | .ReturnStatNode value => do
      let s1 := s.startline "return "
      let s2 ← match value with
        | some v => cwVisit s1 v
        | none => .ok s1
      .ok (s2.endline "")
  | .IfStatNode if_clauses else_clause =>
      match if_clauses with
      | [] => .error "IndexError: list index out of range"
      | (cond0, body0) :: rest => do
          let s1 ← cwVisit (s.startline "if ") cond0
          let s2 ← cwVisit ((s1.endline ":").indent) body0
          let s3 ← visitElifClauses s2.dedent rest
          match else_clause with
          | some e => do
              let s4 ← cwVisit ((s3.line "else:").indent) e
              .ok s4.dedent
          | none => .ok s3
  | .WhileStatNode condition body else_clause => do
      let s1 ← cwVisit (s.startline "while ") condition
      let s2 ← cwVisit ((s1.endline ":").indent) body
      match else_clause with
      | some e => do
          let s4 ← cwVisit ((s2.dedent.line "else:").indent) e
          .ok s4.dedent
      | none => .ok s2.dedent
  | .ForInStatNode target iterator_sequence body else_clause => do
      let s0 := s.startline "for "
      let s1 ← visitForTarget s0 target
      let s2 ← cwVisit (s1.put " in ") iterator_sequence
      let s3 ← cwVisit ((s2.endline ":").indent) body
      match else_clause with
      | some e => do
          let s5 ← cwVisit ((s3.dedent.line "else:").indent) e
          .ok s5.dedent
      | none => .ok s3.dedent
  | .TempsBlockNode temps body =>
      cwVisit { s with tempnames := assignTemps s.tempnames s.tempblockindex 0 temps,
                       tempblockindex := s.tempblockindex + 1 } body
  | .BreakStatNode => .ok (s.line "break")
  | .ContinueStatNode => .ok (s.line "continue")
  | .CFuncDefNode _ _ _ _ declarator body => do
      let s1 ← cwVisit (s.startline "def ") declarator
      let s2 ← cwVisit s1.indent body
      .ok (s2.dedent.endline "")
  | .CVarDefNode base_type declarators => do
      let s1 ← cwVisit (s.startline "cdef ") base_type
      let s2 ← commaSeparatedList (s1.put " ") declarators true
      .ok (s2.endline "")
  | .CNameDeclaratorNode name _ => .ok (s.put name)
  | .CPtrDeclaratorNode base => cwVisit (s.put "*") base
  | .CFuncDeclaratorNode base args => do
      let s1 ← cwVisit s base
      let s2 ← commaSeparatedList (s1.put "(") args false
      .ok (s2.endline "):")
  | .CArgDeclNode base_type declarator default =>
      if base_type.is_self_arg then .ok (s.put "self")
      else do
        let s1 ← match base_type.nameOpt with
          | some _ => do
              let t ← cwVisit s base_type
              .ok (t.put " ")
          | none => .ok s
        let s2 ← cwVisit s1 declarator
        match default with
        | some d => cwVisit (s2.put " = ") d
        | none => .ok s2
  | .CSimpleBaseTypeNode name is_basic_c_type signed longness _ => do
      let s1 ← if is_basic_c_type then do
          let sgn ← match signed with
            | 0 => Except.ok "unsigned "
            | 1 => Except.ok ""
            | 2 => Except.ok "signed "
            | _ => Except.error "IndexError: tuple index out of range"
          let t := s.put sgn
          let t := if longness < 0 then t.put (strRepeat "short " (-longness).toNat)
                   else if longness > 0 then t.put (strRepeat "long " longness.toNat)
                   else t
          pure t
        else pure s
      match name with
      | some nm => .ok (s1.put nm)
      | none => .error "TypeError: can only concatenate str (not NoneType) to str"
  | .CStructOrUnionDefNode typedef_flag visibility packed kind name cname attributes =>
      visitContainerNode s
        ((if typedef_flag then "ctypedef " else "cdef ")
          ++ (if visibility = "public" then "public " else "")
          ++ (if packed then "packed " else "") ++ kind)
        name cname "" attributes
  | .CEnumDefNode name cname items =>
      visitContainerNode s "cdef enum" name cname "" items
  | .CEnumDefItemNode name cname value => do
      let s1 := s.startline name
      let s2 := if cnameTruthy cname then s1.put (" \"" ++ cname.getD "" ++ "\"") else s1
      let s3 ← match value with
        | some v => cwVisit (s2.put " = ") v
        | none => .ok s2
      .ok (s3.endline "")
  | .NameNode name => .ok (s.put name)
  | .IntNode value => .ok (s.put value)
  | .NoneNode => .ok (s.put "None")
  | .BoolNode value => .ok (s.put (if value then "True" else "False"))
  | .NotNode operand => do
      let s1 ← cwVisit (s.put "(not ") operand
      .ok (s1.put ")")
  | .BinopNode operator operand1 operand2 => do
      let s1 ← cwVisit s operand1
      cwVisit (s1.put (" " ++ operator ++ " ")) operand2
  | .ListNode args => do
      let s1 ← visitArgsComma (s.put "[") args
      .ok (s1.put "]")
  | .TupleNode args => do
      let s1 ← visitArgsComma (s.put "(") args
      .ok (s1.put ")")
  | .PrimaryCmpNode operator operand1 operand2 cascade => do
      let s1 ← cwVisit s operand1
      let s2 ← cwVisit (((s1.put " ").put operator).put " ") operand2
      visitCascade s2 operator cascade
  | .TempRefNode handle =>
      match dictGet s.tempnames handle with
      | some nm => .ok (s.put nm)
      | none => .error "KeyError"
  | .GeneralCallNode function positional_args keyword_args starstar_arg => do
      let s1 ← cwVisit s function
      let s2 := s1.put "("
      let s3 ← match positional_args with
        | .asTuple a => cwVisit s2 a
        | .plain l => commaSeparatedList s2 l false
      if keyword_args.isSome ∨ starstar_arg.isSome then
        Except.error "Not implemented yet"
      else .ok (s3.put ")")
  | .unhandledNode reprText =>
      .error ("Node not handled by serializer: " ++ reprText)
termination_by n => sizeOf n * 2
decreasing_by
  all_goals simp_wf
  all_goals try omega
  all_goals (have hlt := Node.sizeOf_argsAttr_lt (by assumption); omega)

/-- Loop `self.visitchildren(node)` over an ordered child list: each child in
order, no separator text. -/
def visitList (s : WState) : List Node → Except String WState
  | [] => .ok s
  | n :: rest => do
      let s1 ← cwVisit s n
      visitList s1 rest
termination_by l => sizeOf l * 2

/-- The loops of `visit_ListNode`/`visit_TupleNode`: `self.visit(arg);
self.put(u",")` for every element, the last included. -/
def visitArgsComma (s : WState) : List Node → Except String WState
  | [] => .ok s
  | a :: rest => do
      let s1 ← cwVisit s a
      visitArgsComma (s1.put ",") rest
termination_by l => sizeOf l * 2

/-- The loop of `visit_CascadedAssignmentNode`: `self.visit(lhs);
self.put(u" = ")` for each target. -/
def visitAssignTargets (s : WState) : List Node → Except String WState
  | [] => .ok s
  | lhs :: rest => do
      let s1 ← cwVisit s lhs
      visitAssignTargets (s1.put " = ") rest
termination_by l => sizeOf l * 2

/-- The target-rendering step of `visit_ForInStatNode`:
`if hasattr(node.target, "args")` (list/tuple targets carry `.args`) loop the
elements with `", "` separators, else visit the target itself. -/
def visitForTarget (s : WState) (target : Node) : Except String WState :=
  match hargs : target.argsAttr with
  | some args => visitForTargets s true args
  | none => cwVisit s target
termination_by sizeOf target * 2 + 1
decreasing_by
  all_goals simp_wf
  all_goals try omega
  all_goals (have hlt := Node.sizeOf_argsAttr_lt (by assumption); omega)

/-- The tuple-target loop of `visit_ForInStatNode` (`", "` before every
element but the first). -/
def visitForTargets (s : WState) (first : Bool) : List Node → Except String WState
  | [] => .ok s
  | a :: rest => do
      let s1 ← cwVisit (if first then s else s.put ", ") a
      visitForTargets s1 false rest
termination_by l => sizeOf l * 2

/-- The `for clause in node.if_clauses[1:]` loop of `visit_IfStatNode`. -/
def visitElifClauses (s : WState) : List (Node × Node) → Except String WState
  | [] => .ok s
  | (cond, body) :: rest => do
      let s1 ← cwVisit (s.startline "elif ") cond
      let s2 ← cwVisit ((s1.endline ":").indent) body
      visitElifClauses s2.dedent rest
termination_by l => sizeOf l * 2

/-- Method `DeclarationWriter.comma_separated_list(items, output_rhs)`:
all items but the last get their optional ` = default` suffix (when
`output_rhs`) and a `", "` separator; the last item is only visited. -/
def commaSeparatedList (s : WState) (items : List Node) (output_rhs : Bool) :
    Except String WState :=
  match items with
  | [] => .ok s
  | item :: rest =>
    match rest with
    | [] => cwVisit s item
    | r :: rs => do
        let s1 ← cwVisit s item
        let s2 ← if output_rhs then
            match hdef : item.default with
            | some d => cwVisit (s1.put " = ") d
            | none => .ok s1
          else .ok s1
        commaSeparatedList (s2.put ", ") (r :: rs) output_rhs
termination_by sizeOf items * 2
decreasing_by
  all_goals simp_wf
  all_goals try omega
  all_goals (have hlt := Node.sizeOf_default_lt (by assumption); omega)

/-- The `while node.cascade:` loop of `visit_PrimaryCmpNode`.  Note: the
source captures `operator = node.operator` once and re-puts that same head
operator for every link, ignoring each link's own `.operator`. -/
def visitCascade (s : WState) (operator : String) :
    Option CascadeNode → Except String WState
  | none => .ok s
  | some (.mk _ operand2 rest) => do
      let s1 ← cwVisit (s.put operator) operand2
      visitCascade s1 operator rest
termination_by c => sizeOf c * 2

/-- Method `DeclarationWriter.visit_container_node(node, decl, extras, attributes)`;
`name`/`cname` are the `node.name`/`node.cname` fields it reads, and a `None`
`extras` is passed as `""` (both are falsy for the `if extras:` test). -/
def visitContainerNode (s : WState) (decl : String) (name : String)
    (cname : Option String) (extras : String) (attributes : Option (List Node)) :
    Except String WState :=
  let s4 := containerHeader s decl name cname extras
  match attributes with
  | none => .ok ((s4.putline "pass").dedent)
  | some [] => .ok ((s4.putline "pass").dedent)
  | some (a :: attrs) => do
      let s5 ← visitList s4 (a :: attrs)
      .ok s5.dedent
termination_by sizeOf attributes * 2

end

/-- Method `PxdWriter.visit_CFuncDefNode`: skip `inline` functions entirely,
otherwise emit the signature keyword phrase and the declarator (no body). -/
def pxdVisitCFuncDefNode (s : WState) (modifiers : List String) (overridable : Bool)
    (visibility : String) (api : Bool) (declarator : Node) : Except String WState :=
  if "inline" ∈ modifiers then .ok s
  else
    let s1 := if overridable then s.startline "cpdef " else s.startline "cdef "
    let s2 := if visibility ≠ "private" then (s1.put visibility).put " " else s1
    let s3 := if api then s2.put "api " else s2
    cwVisit s3 declarator

/-! ### Inversion and projection lemmas -/

theorem bindE_ok {α β : Type} {x : Except String α} {f : α → Except String β} {b : β} :
    x >>= f = Except.ok b ↔ ∃ a, x = Except.ok a ∧ f a = Except.ok b := by
  cases x <;> simp [Bind.bind, Except.bind]

theorem pureE_ok {α : Type} {a b : α} : (pure a : Except String α) = Except.ok b ↔ a = b := by
  simp [pure, Except.pure]

theorem bindE_okE {α β : Type} (a : α) (f : α → Except String β) :
    ((Except.ok a : Except String α) >>= f) = f a := rfl

@[simp] theorem WState.put_numindents (w : WState) (t : String) :
    (w.put t).numindents = w.numindents := rfl

@[simp] theorem WState.put_tempblockindex (w : WState) (t : String) :
    (w.put t).tempblockindex = w.tempblockindex := rfl

@[simp] theorem WState.put_tempnames (w : WState) (t : String) :
    (w.put t).tempnames = w.tempnames := rfl

@[simp] theorem WState.startline_numindents (w : WState) (t : String) :
    (w.startline t).numindents = w.numindents := rfl

@[simp] theorem WState.startline_tempblockindex (w : WState) (t : String) :
    (w.startline t).tempblockindex = w.tempblockindex := rfl

@[simp] theorem WState.startline_tempnames (w : WState) (t : String) :
    (w.startline t).tempnames = w.tempnames := rfl

@[simp] theorem WState.endline_numindents (w : WState) (t : String) :
    (w.endline t).numindents = w.numindents := rfl

@[simp] theorem WState.endline_tempblockindex (w : WState) (t : String) :
    (w.endline t).tempblockindex = w.tempblockindex := rfl

@[simp] theorem WState.endline_tempnames (w : WState) (t : String) :
    (w.endline t).tempnames = w.tempnames := rfl

@[simp] theorem WState.putline_numindents (w : WState) (t : String) :
    (w.putline t).numindents = w.numindents := rfl

@[simp] theorem WState.putline_tempblockindex (w : WState) (t : String) :
    (w.putline t).tempblockindex = w.tempblockindex := rfl

@[simp] theorem WState.putline_tempnames (w : WState) (t : String) :
    (w.putline t).tempnames = w.tempnames := rfl

@[simp] theorem WState.line_numindents (w : WState) (t : String) :
    (w.line t).numindents = w.numindents := rfl

@[simp] theorem WState.line_tempblockindex (w : WState) (t : String) :
    (w.line t).tempblockindex = w.tempblockindex := rfl

@[simp] theorem WState.line_tempnames (w : WState) (t : String) :
    (w.line t).tempnames = w.tempnames := rfl

@[simp] theorem WState.indent_numindents (w : WState) :
    w.indent.numindents = w.numindents + 1 := rfl

@[simp] theorem WState.indent_tempblockindex (w : WState) :
    w.indent.tempblockindex = w.tempblockindex := rfl

@[simp] theorem WState.indent_tempnames (w : WState) :
    w.indent.tempnames = w.tempnames := rfl

@[simp] theorem WState.dedent_numindents (w : WState) :
    w.dedent.numindents = w.numindents - 1 := rfl

@[simp] theorem WState.dedent_tempblockindex (w : WState) :
    w.dedent.tempblockindex = w.tempblockindex := rfl

@[simp] theorem WState.dedent_tempnames (w : WState) :
    w.dedent.tempnames = w.tempnames := rfl

/-! ### The traversal invariant: matched indent/dedent pairs, monotone
temps-block counter -/

@[simp] theorem containerHeader_numindents (s : WState) (decl name : String)
    (cname : Option String) (extras : String) :
    (containerHeader s decl name cname extras).numindents = s.numindents + 1 := by
  unfold containerHeader
  repeat' split
  all_goals simp

@[simp] theorem containerHeader_tempblockindex (s : WState) (decl name : String)
    (cname : Option String) (extras : String) :
    (containerHeader s decl name cname extras).tempblockindex = s.tempblockindex := by
  unfold containerHeader
  repeat' split
  all_goals simp

@[simp] theorem containerHeader_tempnames (s : WState) (decl name : String)
    (cname : Option String) (extras : String) :
    (containerHeader s decl name cname extras).tempnames = s.tempnames := by
  unfold containerHeader
  repeat' split
  all_goals simp

mutual

/-- Every rule restores `numindents` on normal completion and never
decreases `tempblockindex`. -/
theorem cwVisit_inv (n : Node) : ∀ (s s' : WState), cwVisit s n = .ok s' →
    s'.numindents = s.numindents ∧ s.tempblockindex ≤ s'.tempblockindex := by
  cases n with
  | ModuleNode body =>
      intro s s' h
      simp only [cwVisit] at h
      exact cwVisit_inv body s s' h
  | StatListNode stats =>
      intro s s' h
      simp only [cwVisit] at h
      split at h
      · simp only [Except.ok.injEq] at h
        subst h
        exact ⟨by simp, by simp⟩
      · exact visitList_inv stats s s' h
  | PassStatNode =>
      intro s s' h
      simp only [cwVisit, Except.ok.injEq] at h
      subst h
      exact ⟨by simp, by simp⟩
  | ExprStatNode expr =>
      intro s s' h
      simp only [cwVisit, bindE_ok, pureE_ok, Except.ok.injEq, exists_eq_left, exists_eq_left', exists_eq_right, exists_eq_right'] at h
      obtain ⟨s1, h1, rfl⟩ := h
      obtain ⟨a1, a2⟩ := cwVisit_inv expr _ _ h1
      simp at a1 a2
      simp
      omega
  | SingleAssignmentNode lhs rhs =>
      intro s s' h
      simp only [cwVisit, bindE_ok, pureE_ok, Except.ok.injEq, exists_eq_left, exists_eq_left', exists_eq_right, exists_eq_right'] at h
      obtain ⟨s1, h1, s2, h2, rfl⟩ := h
      obtain ⟨a1, a2⟩ := cwVisit_inv lhs _ _ h1
      obtain ⟨b1, b2⟩ := cwVisit_inv rhs _ _ h2
      simp at a1 a2 b1 b2
      simp
      omega
  | CascadedAssignmentNode lhs_list rhs =>
      intro s s' h
      simp only [cwVisit, bindE_ok, pureE_ok, Except.ok.injEq, exists_eq_left, exists_eq_left', exists_eq_right, exists_eq_right'] at h
      obtain ⟨s1, h1, s2, h2, rfl⟩ := h
      obtain ⟨a1, a2⟩ := visitAssignTargets_inv lhs_list _ _ h1
      obtain ⟨b1, b2⟩ := cwVisit_inv rhs _ _ h2
      simp at a1 a2 b1 b2
      simp
      omega
  | ReturnStatNode value =>
      cases value with
      | some v =>
          intro s s' h
          simp only [cwVisit, bindE_ok, pureE_ok, Except.ok.injEq, exists_eq_left, exists_eq_left', exists_eq_right, exists_eq_right'] at h
          obtain ⟨s1, h1, rfl⟩ := h
          obtain ⟨a1, a2⟩ := cwVisit_inv v _ _ h1
          simp at a1 a2
          simp
          omega
      | none =>
          intro s s' h
          simp only [cwVisit, bindE_ok, pureE_ok, Except.ok.injEq, exists_eq_left, exists_eq_left', exists_eq_right, exists_eq_right'] at h
          subst h
          exact ⟨by simp, by simp⟩
  | IfStatNode if_clauses else_clause =>
      cases if_clauses with
      | nil =>
          intro s s' h
          simp only [cwVisit] at h
          exact Except.noConfusion h
      | cons c rest =>
          obtain ⟨cond0, body0⟩ := c
          cases else_clause with
          | some e =>
              intro s s' h
              simp only [cwVisit, bindE_ok, pureE_ok, Except.ok.injEq, exists_eq_left, exists_eq_left', exists_eq_right, exists_eq_right'] at h
              obtain ⟨s1, h1, s2, h2, s3, h3, s4, h4, rfl⟩ := h
              obtain ⟨a1, a2⟩ := cwVisit_inv cond0 _ _ h1
              obtain ⟨b1, b2⟩ := cwVisit_inv body0 _ _ h2
              obtain ⟨c1, c2⟩ := visitElifClauses_inv rest _ _ h3
              obtain ⟨d1, d2⟩ := cwVisit_inv e _ _ h4
              simp at a1 a2 b1 b2 c1 c2 d1 d2
              simp
              omega
          | none =>
              intro s s' h
              simp only [cwVisit, bindE_ok, pureE_ok, Except.ok.injEq, exists_eq_left, exists_eq_left', exists_eq_right, exists_eq_right'] at h
              obtain ⟨s1, h1, s2, h2, h3⟩ := h
              obtain ⟨a1, a2⟩ := cwVisit_inv cond0 _ _ h1
              obtain ⟨b1, b2⟩ := cwVisit_inv body0 _ _ h2
              obtain ⟨c1, c2⟩ := visitElifClauses_inv rest _ _ h3
              simp at a1 a2 b1 b2 c1 c2
              omega
  | WhileStatNode condition body else_clause =>
      cases else_clause with
      | some e =>
          intro s s' h
          simp only [cwVisit, bindE_ok, pureE_ok, Except.ok.injEq, exists_eq_left, exists_eq_left', exists_eq_right, exists_eq_right'] at h
          obtain ⟨s1, h1, s2, h2, s4, h4, rfl⟩ := h
          obtain ⟨a1, a2⟩ := cwVisit_inv condition _ _ h1
          obtain ⟨b1, b2⟩ := cwVisit_inv body _ _ h2
          obtain ⟨d1, d2⟩ := cwVisit_inv e _ _ h4
          simp at a1 a2 b1 b2 d1 d2
          simp
          omega
      | none =>
          intro s s' h
          simp only [cwVisit, bindE_ok, pureE_ok, Except.ok.injEq, exists_eq_left, exists_eq_left', exists_eq_right, exists_eq_right'] at h
          obtain ⟨s1, h1, s2, h2, rfl⟩ := h
          obtain ⟨a1, a2⟩ := cwVisit_inv condition _ _ h1
          obtain ⟨b1, b2⟩ := cwVisit_inv body _ _ h2
          simp at a1 a2 b1 b2
          simp
          omega
  | ForInStatNode target iterator_sequence body else_clause =>
      cases else_clause with
      | some e =>
          intro s s' h
          simp only [cwVisit, bindE_ok, pureE_ok, Except.ok.injEq, exists_eq_left, exists_eq_left', exists_eq_right, exists_eq_right'] at h
          obtain ⟨s1, h1, s2, h2, s3, h3, s5, h5, rfl⟩ := h
          obtain ⟨a1, a2⟩ := visitForTarget_inv target _ _ h1
          obtain ⟨b1, b2⟩ := cwVisit_inv iterator_sequence _ _ h2
          obtain ⟨c1, c2⟩ := cwVisit_inv body _ _ h3
          obtain ⟨d1, d2⟩ := cwVisit_inv e _ _ h5
          simp at a1 a2 b1 b2 c1 c2 d1 d2
          simp
          omega
      | none =>
          intro s s' h
          simp only [cwVisit, bindE_ok, pureE_ok, Except.ok.injEq, exists_eq_left, exists_eq_left', exists_eq_right, exists_eq_right'] at h
          obtain ⟨s1, h1, s2, h2, s3, h3, rfl⟩ := h
          obtain ⟨a1, a2⟩ := visitForTarget_inv target _ _ h1
          obtain ⟨b1, b2⟩ := cwVisit_inv iterator_sequence _ _ h2
          obtain ⟨c1, c2⟩ := cwVisit_inv body _ _ h3
          simp at a1 a2 b1 b2 c1 c2
          simp
          omega
  | TempsBlockNode temps body =>
      intro s s' h
      simp only [cwVisit] at h
      obtain ⟨a1, a2⟩ := cwVisit_inv body _ _ h
      simp at a1 a2
      omega
  | BreakStatNode =>
      intro s s' h
      simp only [cwVisit, Except.ok.injEq] at h
      subst h
      exact ⟨by simp, by simp⟩
  | ContinueStatNode =>
      intro s s' h
      simp only [cwVisit, Except.ok.injEq] at h
      subst h
      exact ⟨by simp, by simp⟩
  | CFuncDefNode modifiers overridable visibility api declarator body =>
      intro s s' h
      simp only [cwVisit, bindE_ok, pureE_ok, Except.ok.injEq, exists_eq_left, exists_eq_left', exists_eq_right, exists_eq_right'] at h
      obtain ⟨s1, h1, s2, h2, rfl⟩ := h
      obtain ⟨a1, a2⟩ := cwVisit_inv declarator _ _ h1
      obtain ⟨b1, b2⟩ := cwVisit_inv body _ _ h2
      simp at a1 a2 b1 b2
      simp
      omega
  | CVarDefNode base_type declarators =>
      intro s s' h
      simp only [cwVisit, bindE_ok, pureE_ok, Except.ok.injEq, exists_eq_left, exists_eq_left', exists_eq_right, exists_eq_right'] at h
      obtain ⟨s1, h1, s2, h2, rfl⟩ := h
      obtain ⟨a1, a2⟩ := cwVisit_inv base_type _ _ h1
      obtain ⟨b1, b2⟩ := commaSeparatedList_inv declarators _ true _ h2
      simp at a1 a2 b1 b2
      simp
      omega
  | CNameDeclaratorNode name default =>
      intro s s' h
      simp only [cwVisit, Except.ok.injEq] at h
      subst h
      exact ⟨by simp, by simp⟩
  | CPtrDeclaratorNode base =>
      intro s s' h
      simp only [cwVisit] at h
      obtain ⟨a1, a2⟩ := cwVisit_inv base _ _ h
      simp at a1 a2
      omega
  | CFuncDeclaratorNode base args =>
      intro s s' h
      simp only [cwVisit, bindE_ok, pureE_ok, Except.ok.injEq, exists_eq_left, exists_eq_left', exists_eq_right, exists_eq_right'] at h
      obtain ⟨s1, h1, s2, h2, rfl⟩ := h
      obtain ⟨a1, a2⟩ := cwVisit_inv base _ _ h1
      obtain ⟨b1, b2⟩ := commaSeparatedList_inv args _ false _ h2
      simp at a1 a2 b1 b2
      simp
      omega
  | CArgDeclNode base_type declarator default =>
      cases default with
      | some d =>
          intro s s' h
          simp only [cwVisit] at h
          split at h
          · simp only [Except.ok.injEq] at h
            subst h
            exact ⟨by simp, by simp⟩
          · cases hbt : base_type.nameOpt with
            | some nm =>
                simp only [hbt, bindE_ok, pureE_ok, Except.ok.injEq, exists_eq_left, exists_eq_left', exists_eq_right, exists_eq_right'] at h
                obtain ⟨t, ht, s2, h2, h3⟩ := h
                obtain ⟨a1, a2⟩ := cwVisit_inv base_type _ _ ht
                obtain ⟨b1, b2⟩ := cwVisit_inv declarator _ _ h2
                obtain ⟨c1, c2⟩ := cwVisit_inv d _ _ h3
                simp at a1 a2 b1 b2 c1 c2
                omega
            | none =>
                simp only [hbt, bindE_ok, pureE_ok, Except.ok.injEq, exists_eq_left, exists_eq_left', exists_eq_right, exists_eq_right'] at h
                obtain ⟨s2, h2, h3⟩ := h
                obtain ⟨b1, b2⟩ := cwVisit_inv declarator _ _ h2
                obtain ⟨c1, c2⟩ := cwVisit_inv d _ _ h3
                simp at b1 b2 c1 c2
                omega
      | none =>
          intro s s' h
          simp only [cwVisit] at h
          split at h
          · simp only [Except.ok.injEq] at h
            subst h
            exact ⟨by simp, by simp⟩
          · cases hbt : base_type.nameOpt with
            | some nm =>
                simp only [hbt, bindE_ok, pureE_ok, Except.ok.injEq, exists_eq_left, exists_eq_left', exists_eq_right, exists_eq_right'] at h
                obtain ⟨t, ht, h2⟩ := h
                obtain ⟨a1, a2⟩ := cwVisit_inv base_type _ _ ht
                obtain ⟨b1, b2⟩ := cwVisit_inv declarator _ _ h2
                simp at a1 a2 b1 b2
                omega
            | none =>
                simp only [hbt, bindE_ok, pureE_ok, Except.ok.injEq, exists_eq_left, exists_eq_left', exists_eq_right, exists_eq_right'] at h
                exact cwVisit_inv declarator _ _ h
  | CSimpleBaseTypeNode name is_basic_c_type signed longness is_self_arg =>
      intro s s' h
      cases is_basic_c_type with
      | false =>
          cases name with
          | some nm =>
              simp [cwVisit, bindE_ok, pureE_ok] at h
              subst h
              exact ⟨by simp, by simp⟩
          | none =>
              simp [cwVisit, bindE_ok, pureE_ok] at h
      | true =>
          rcases signed with _ | _ | _ | m
          case succ.succ.succ =>
              simp [cwVisit, bindE_ok, pureE_ok] at h
          all_goals cases name with
          | some nm =>
              simp [cwVisit, bindE_ok, pureE_ok] at h
              subst h
              constructor <;> (repeat' split) <;> simp
          | none =>
              simp [cwVisit, bindE_ok, pureE_ok] at h
  | CStructOrUnionDefNode typedef_flag visibility packed kind name cname attributes =>
      intro s s' h
      simp only [cwVisit] at h
      exact visitContainerNode_inv attributes s _ name cname "" s' h
  | CEnumDefNode name cname items =>
      intro s s' h
      simp only [cwVisit] at h
      exact visitContainerNode_inv items s "cdef enum" name cname "" s' h
  | CEnumDefItemNode name cname value =>
      cases value with
      | some v =>
          intro s s' h
          cases hc : cnameTruthy cname with
          | true =>
              simp [cwVisit, bindE_ok, pureE_ok, hc] at h
              obtain ⟨s3, h3, rfl⟩ := h
              obtain ⟨a1, a2⟩ := cwVisit_inv v _ _ h3
              simp at a1 a2
              simp
              omega
          | false =>
              simp [cwVisit, bindE_ok, pureE_ok, hc] at h
              obtain ⟨s3, h3, rfl⟩ := h
              obtain ⟨a1, a2⟩ := cwVisit_inv v _ _ h3
              simp at a1 a2
              simp
              omega
      | none =>
          intro s s' h
          cases hc : cnameTruthy cname with
          | true =>
              simp [cwVisit, bindE_ok, pureE_ok, hc] at h
              subst h
              exact ⟨by simp, by simp⟩
          | false =>
              simp [cwVisit, bindE_ok, pureE_ok, hc] at h
              subst h
              exact ⟨by simp, by simp⟩
  | NameNode name =>
      intro s s' h
      simp only [cwVisit, Except.ok.injEq] at h
      subst h
      exact ⟨by simp, by simp⟩
  | IntNode value =>
      intro s s' h
      simp only [cwVisit, Except.ok.injEq] at h
      subst h
      exact ⟨by simp, by simp⟩
  | NoneNode =>
      intro s s' h
      simp only [cwVisit, Except.ok.injEq] at h
      subst h
      exact ⟨by simp, by simp⟩
  | BoolNode value =>
      intro s s' h
      simp only [cwVisit, Except.ok.injEq] at h
      subst h
      exact ⟨by simp, by simp⟩
  | NotNode operand =>
      intro s s' h
      simp only [cwVisit, bindE_ok, pureE_ok, Except.ok.injEq, exists_eq_left, exists_eq_left', exists_eq_right, exists_eq_right'] at h
      obtain ⟨s1, h1, rfl⟩ := h
      obtain ⟨a1, a2⟩ := cwVisit_inv operand _ _ h1
      simp at a1 a2
      simp
      omega
  | BinopNode operator operand1 operand2 =>
      intro s s' h
      simp only [cwVisit, bindE_ok, pureE_ok, Except.ok.injEq, exists_eq_left, exists_eq_left', exists_eq_right, exists_eq_right'] at h
      obtain ⟨s1, h1, h2⟩ := h
      obtain ⟨a1, a2⟩ := cwVisit_inv operand1 _ _ h1
      obtain ⟨b1, b2⟩ := cwVisit_inv operand2 _ _ h2
      simp at a1 a2 b1 b2
      omega
  | ListNode args =>
      intro s s' h
      simp only [cwVisit, bindE_ok, pureE_ok, Except.ok.injEq, exists_eq_left, exists_eq_left', exists_eq_right, exists_eq_right'] at h
      obtain ⟨s1, h1, rfl⟩ := h
      obtain ⟨a1, a2⟩ := visitArgsComma_inv args _ _ h1
      simp at a1 a2
      simp
      omega
  | TupleNode args =>
      intro s s' h
      simp only [cwVisit, bindE_ok, pureE_ok, Except.ok.injEq, exists_eq_left, exists_eq_left', exists_eq_right, exists_eq_right'] at h
      obtain ⟨s1, h1, rfl⟩ := h
      obtain ⟨a1, a2⟩ := visitArgsComma_inv args _ _ h1
      simp at a1 a2
      simp
      omega
  | PrimaryCmpNode operator operand1 operand2 cascade =>
      intro s s' h
      simp only [cwVisit, bindE_ok, pureE_ok, Except.ok.injEq, exists_eq_left, exists_eq_left', exists_eq_right, exists_eq_right'] at h
      obtain ⟨s1, h1, s2, h2, h3⟩ := h
      obtain ⟨a1, a2⟩ := cwVisit_inv operand1 _ _ h1
      obtain ⟨b1, b2⟩ := cwVisit_inv operand2 _ _ h2
      obtain ⟨c1, c2⟩ := visitCascade_inv cascade _ operator _ h3
      simp at a1 a2 b1 b2 c1 c2
      omega
  | TempRefNode handle =>
      intro s s' h
      cases hd : dictGet s.tempnames handle with
      | some nm =>
          simp only [cwVisit, hd, Except.ok.injEq] at h
          subst h
          exact ⟨by simp, by simp⟩
      | none =>
          simp only [cwVisit, hd] at h
          exact Except.noConfusion h
  | GeneralCallNode function positional_args keyword_args starstar_arg =>
      cases positional_args with
      | asTuple a =>
          intro s s' h
          simp only [cwVisit, bindE_ok, pureE_ok, Except.ok.injEq, exists_eq_left, exists_eq_left', exists_eq_right, exists_eq_right'] at h
          obtain ⟨s1, h1, s3, h3, h4⟩ := h
          split at h4
          · exact Except.noConfusion h4
          · simp only [Except.ok.injEq] at h4
            subst h4
            obtain ⟨a1, a2⟩ := cwVisit_inv function _ _ h1
            obtain ⟨b1, b2⟩ := cwVisit_inv a _ _ h3
            simp at a1 a2 b1 b2
            simp
            omega
      | plain l =>
          intro s s' h
          simp only [cwVisit, bindE_ok, pureE_ok, Except.ok.injEq, exists_eq_left, exists_eq_left', exists_eq_right, exists_eq_right'] at h
          obtain ⟨s1, h1, s3, h3, h4⟩ := h
          split at h4
          · exact Except.noConfusion h4
          · simp only [Except.ok.injEq] at h4
            subst h4
            obtain ⟨a1, a2⟩ := cwVisit_inv function _ _ h1
            obtain ⟨b1, b2⟩ := commaSeparatedList_inv l _ false _ h3
            simp at a1 a2 b1 b2
            simp
            omega
  | unhandledNode reprText =>
      intro s s' h
      simp only [cwVisit] at h
      exact Except.noConfusion h
termination_by sizeOf n * 2

theorem visitForTarget_inv (target : Node) : ∀ (s s' : WState),
    visitForTarget s target = .ok s' →
    s'.numindents = s.numindents ∧ s.tempblockindex ≤ s'.tempblockindex := by
  intro s s' h
  rw [visitForTarget] at h
  split at h
  · exact visitForTargets_inv _ _ true _ h
  · exact cwVisit_inv target _ _ h
termination_by sizeOf target * 2 + 1
decreasing_by
  all_goals simp_wf
  all_goals try omega
  all_goals (have hlt := Node.sizeOf_argsAttr_lt (by assumption); omega)

theorem visitList_inv (l : List Node) : ∀ (s s' : WState), visitList s l = .ok s' →
    s'.numindents = s.numindents ∧ s.tempblockindex ≤ s'.tempblockindex := by
  cases l with
  | nil =>
      intro s s' h
      simp only [visitList, Except.ok.injEq] at h
      subst h
      exact ⟨rfl, le_refl _⟩
  | cons n rest =>
      intro s s' h
      simp only [visitList, bindE_ok] at h
      obtain ⟨s1, h1, h2⟩ := h
      obtain ⟨a1, a2⟩ := cwVisit_inv n _ _ h1
      obtain ⟨b1, b2⟩ := visitList_inv rest _ _ h2
      exact ⟨by omega, by omega⟩
termination_by sizeOf l * 2

theorem visitArgsComma_inv (l : List Node) : ∀ (s s' : WState),
    visitArgsComma s l = .ok s' →
    s'.numindents = s.numindents ∧ s.tempblockindex ≤ s'.tempblockindex := by
  cases l with
  | nil =>
      intro s s' h
      simp only [visitArgsComma, Except.ok.injEq] at h
      subst h
      exact ⟨rfl, le_refl _⟩
  | cons n rest =>
      intro s s' h
      simp only [visitArgsComma, bindE_ok] at h
      obtain ⟨s1, h1, h2⟩ := h
      obtain ⟨a1, a2⟩ := cwVisit_inv n _ _ h1
      obtain ⟨b1, b2⟩ := visitArgsComma_inv rest _ _ h2
      simp at b1 b2
      exact ⟨by omega, by omega⟩
termination_by sizeOf l * 2

theorem visitAssignTargets_inv (l : List Node) : ∀ (s s' : WState),
    visitAssignTargets s l = .ok s' →
    s'.numindents = s.numindents ∧ s.tempblockindex ≤ s'.tempblockindex := by
  cases l with
  | nil =>
      intro s s' h
      simp only [visitAssignTargets, Except.ok.injEq] at h
      subst h
      exact ⟨rfl, le_refl _⟩
  | cons n rest =>
      intro s s' h
      simp only [visitAssignTargets, bindE_ok] at h
      obtain ⟨s1, h1, h2⟩ := h
      obtain ⟨a1, a2⟩ := cwVisit_inv n _ _ h1
      obtain ⟨b1, b2⟩ := visitAssignTargets_inv rest _ _ h2
      simp at b1 b2
      exact ⟨by omega, by omega⟩
termination_by sizeOf l * 2

theorem visitForTargets_inv (l : List Node) : ∀ (s : WState) (first : Bool)
    (s' : WState), visitForTargets s first l = .ok s' →
    s'.numindents = s.numindents ∧ s.tempblockindex ≤ s'.tempblockindex := by
  cases l with
  | nil =>
      intro s first s' h
      simp only [visitForTargets, Except.ok.injEq] at h
      subst h
      exact ⟨rfl, le_refl _⟩
  | cons n rest =>
      intro s first s' h
      simp only [visitForTargets, bindE_ok] at h
      obtain ⟨s1, h1, h2⟩ := h
      obtain ⟨a1, a2⟩ := cwVisit_inv n _ _ h1
      obtain ⟨b1, b2⟩ := visitForTargets_inv rest _ false _ h2
      have e1 : ((if first then s else s.put ", ")).numindents = s.numindents := by
        split <;> simp
      have e2 : ((if first then s else s.put ", ")).tempblockindex = s.tempblockindex := by
        split <;> simp
      rw [e1] at a1
      rw [e2] at a2
      exact ⟨by omega, by omega⟩
termination_by sizeOf l * 2

theorem visitElifClauses_inv (l : List (Node × Node)) : ∀ (s s' : WState),
    visitElifClauses s l = .ok s' →
    s'.numindents = s.numindents ∧ s.tempblockindex ≤ s'.tempblockindex := by
  cases l with
  | nil =>
      intro s s' h
      simp only [visitElifClauses, Except.ok.injEq] at h
      subst h
      exact ⟨rfl, le_refl _⟩
  | cons c rest =>
      obtain ⟨cond, body⟩ := c
      intro s s' h
      simp only [visitElifClauses, bindE_ok] at h
      obtain ⟨s1, h1, s2, h2, h3⟩ := h
      obtain ⟨a1, a2⟩ := cwVisit_inv cond _ _ h1
      obtain ⟨b1, b2⟩ := cwVisit_inv body _ _ h2
      obtain ⟨c1, c2⟩ := visitElifClauses_inv rest _ _ h3
      simp at a1 a2 b1 b2 c1 c2
      omega
termination_by sizeOf l * 2

theorem commaSeparatedList_inv (items : List Node) : ∀ (s : WState)
    (output_rhs : Bool) (s' : WState), commaSeparatedList s items output_rhs = .ok s' →
    s'.numindents = s.numindents ∧ s.tempblockindex ≤ s'.tempblockindex := by
  cases items with
  | nil =>
      intro s output_rhs s' h
      simp only [commaSeparatedList, Except.ok.injEq] at h
      subst h
      exact ⟨rfl, le_refl _⟩
  | cons item rest =>
      cases rest with
      | nil =>
          intro s output_rhs s' h
          simp only [commaSeparatedList] at h
          exact cwVisit_inv item s s' h
      | cons r rs =>
          intro s output_rhs s' h
          simp only [commaSeparatedList, bindE_ok] at h
          obtain ⟨s1, h1, hrest⟩ := h
          obtain ⟨a1, a2⟩ := cwVisit_inv item _ _ h1
          have key : ∀ s2 : WState,
              commaSeparatedList (WState.put s2 ", ") (r :: rs) output_rhs = .ok s' →
              s2.numindents = s1.numindents → s1.tempblockindex ≤ s2.tempblockindex →
              s'.numindents = s.numindents ∧ s.tempblockindex ≤ s'.tempblockindex := by
            intro s2 htail e1 e2
            obtain ⟨c1, c2⟩ := commaSeparatedList_inv (r :: rs) _ output_rhs _ htail
            simp at c1 c2
            omega
          split at hrest
          · split at hrest
            · simp only [bindE_ok] at hrest
              obtain ⟨s2, h2, h3⟩ := hrest
              obtain ⟨d1, d2⟩ := cwVisit_inv _ _ _ h2
              simp at d1 d2
              exact key s2 h3 (by omega) (by omega)
            · simp only [bindE_ok, pureE_ok, Except.ok.injEq, exists_eq_left,
                exists_eq_left'] at hrest
              exact key s1 hrest rfl (le_refl _)
          · simp only [bindE_ok, pureE_ok, Except.ok.injEq, exists_eq_left,
              exists_eq_left'] at hrest
            exact key s1 hrest rfl (le_refl _)
termination_by sizeOf items * 2
decreasing_by
  all_goals simp_wf
  all_goals try omega
  all_goals (have hlt := Node.sizeOf_default_lt (by assumption); omega)

theorem visitCascade_inv (c : Option CascadeNode) : ∀ (s : WState) (operator : String)
    (s' : WState), visitCascade s operator c = .ok s' →
    s'.numindents = s.numindents ∧ s.tempblockindex ≤ s'.tempblockindex := by
  cases c with
  | none =>
      intro s operator s' h
      simp only [visitCascade, Except.ok.injEq] at h
      subst h
      exact ⟨rfl, le_refl _⟩
  | some link =>
      obtain ⟨op, operand2, rest⟩ := link
      intro s operator s' h
      simp only [visitCascade, bindE_ok] at h
      obtain ⟨s1, h1, h2⟩ := h
      obtain ⟨a1, a2⟩ := cwVisit_inv operand2 _ _ h1
      obtain ⟨b1, b2⟩ := visitCascade_inv rest _ operator _ h2
      simp at a1 a2
      omega
termination_by sizeOf c * 2

theorem visitContainerNode_inv (attributes : Option (List Node)) : ∀ (s : WState)
    (decl name : String) (cname : Option String) (extras : String) (s' : WState),
    visitContainerNode s decl name cname extras attributes = .ok s' →
    s'.numindents = s.numindents ∧ s.tempblockindex ≤ s'.tempblockindex := by
  cases attributes with
  | none =>
      intro s decl name cname extras s' h
      simp only [visitContainerNode, Except.ok.injEq] at h
      subst h
      exact ⟨by simp, by simp⟩
  | some attrs =>
      cases attrs with
      | nil =>
          intro s decl name cname extras s' h
          simp only [visitContainerNode, Except.ok.injEq] at h
          subst h
          exact ⟨by simp, by simp⟩
      | cons a rest =>
          intro s decl name cname extras s' h
          simp only [visitContainerNode, bindE_ok, Except.ok.injEq] at h
          obtain ⟨s5, h5, rfl⟩ := h
          obtain ⟨a1, a2⟩ := visitList_inv (a :: rest) _ _ h5
          simp at a1 a2
          simp
          omega
termination_by sizeOf attributes * 2

end

/-! ### Freshness of generated temporary names -/

/-- Numeric value of a decimal digit character. -/
def digitVal (c : Char) : Nat := c.toNat - Char.toNat (Char.ofNat 48)

/-- Value of a most-significant-first digit string. -/
def digitsVal (cs : List Char) : Nat := cs.foldl (fun a c => 10 * a + digitVal c) 0

theorem digitsVal_append (xs : List Char) (c : Char) :
    digitsVal (xs ++ [c]) = 10 * digitsVal xs + digitVal c := by
  simp [digitsVal, List.foldl_append]

theorem digitVal_digitChar {m : Nat} (hm : m < 10) : digitVal (Nat.digitChar m) = m := by
  interval_cases m <;> decide

theorem digitChar_ne_underscore {m : Nat} (hm : m < 10) :
    Nat.digitChar m ≠ Char.ofNat 95 := by
  interval_cases m <;> decide

theorem decDigits_not_underscore (n : Nat) : Char.ofNat 95 ∉ decDigits n := by
  induction n using Nat.strong_induction_on with
  | _ n ih =>
    rw [decDigits]
    split
    · intro hmem
      simp at hmem
      exact digitChar_ne_underscore (by assumption) hmem.symm
    · intro hmem
      rw [List.mem_append] at hmem
      rcases hmem with hmem | hmem
      · exact ih (n / 10) (Nat.div_lt_self (by omega) (by omega)) hmem
      · simp at hmem
        exact digitChar_ne_underscore (by omega) hmem.symm

theorem digitsVal_decDigits (n : Nat) : digitsVal (decDigits n) = n := by
  induction n using Nat.strong_induction_on with
  | _ n ih =>
    rw [decDigits]
    split
    · simp [digitsVal]
      exact digitVal_digitChar (by assumption)
    · rw [digitsVal_append, ih (n / 10) (Nat.div_lt_self (by omega) (by omega)),
        digitVal_digitChar (by omega)]
      omega

theorem decDigits_inj {m n : Nat} (h : decDigits m = decDigits n) : m = n := by
  have hv := digitsVal_decDigits m
  rw [h, digitsVal_decDigits] at hv
  omega

theorem append_underscore_inj : ∀ (xs ys xs' ys' : List Char),
    Char.ofNat 95 ∉ xs → Char.ofNat 95 ∉ xs' →
    xs ++ Char.ofNat 95 :: ys = xs' ++ Char.ofNat 95 :: ys' →
    xs = xs' ∧ ys = ys' := by
  intro xs
  induction xs with
  | nil =>
      intro ys xs' ys' hx hx' h
      cases xs' with
      | nil => simpa using h
      | cons a as =>
          simp at h
          obtain ⟨rfl, -⟩ := h
          exact absurd (List.mem_cons_self _ _) hx'
  | cons a as ih =>
      intro ys xs' ys' hx hx' h
      cases xs' with
      | nil =>
          simp at h
          obtain ⟨rfl, -⟩ := h
          exact absurd (List.mem_cons_self _ _) hx
      | cons a' as' =>
          simp at h
          obtain ⟨rfl, h2⟩ := h
          have hr := ih ys as' ys' (fun hm => hx (List.mem_cons_of_mem _ hm))
              (fun hm => hx' (List.mem_cons_of_mem _ hm)) h2
          exact ⟨by rw [hr.1], hr.2⟩

theorem tempName_data (blk idx : Nat) :
    (tempName blk idx).data =
      Char.ofNat 36 :: (decDigits blk ++ Char.ofNat 95 :: decDigits idx) := by
  have h36 : ("$" : String).data = [Char.ofNat 36] := by decide
  have h95 : ("_" : String).data = [Char.ofNat 95] := by decide
  simp [tempName, decRepr, String.data_append, h36, h95]

/-- Distinct block indices yield distinct generated names, whatever the slots. -/
theorem tempName_inj_blk {b b' j j' : Nat} (hb : b ≠ b') :
    tempName b j ≠ tempName b' j' := by
  intro h
  have hd : (tempName b j).data = (tempName b' j').data := by rw [h]
  rw [tempName_data, tempName_data] at hd
  simp at hd
  obtain ⟨h1, -⟩ := append_underscore_inj _ _ _ _ (decDigits_not_underscore b)
      (decDigits_not_underscore b') hd
  exact hb (decDigits_inj h1)

theorem dictGet_insert_self (tn : List (Nat × String)) (k : Nat) (v : String) :
    dictGet (dictInsert tn k v) k = some v := by
  simp [dictGet, dictInsert, List.find?]

theorem dictGet_insert_ne (tn : List (Nat × String)) (k k' : Nat) (v : String)
    (hne : k' ≠ k) : dictGet (dictInsert tn k v) k' = dictGet tn k' := by
  simp only [dictGet, dictInsert]
  rw [List.find?_cons_of_neg]
  simp
  omega

theorem assignTemps_lookup_notmem : ∀ (temps : List Nat) (tn : List (Nat × String))
    (blk idx key : Nat), key ∉ temps →
    dictGet (assignTemps tn blk idx temps) key = dictGet tn key := by
  intro temps
  induction temps with
  | nil =>
      intro tn blk idx key h
      rfl
  | cons t rest ih =>
      intro tn blk idx key h
      simp only [assignTemps]
      rw [ih _ blk (idx + 1) key (fun hm => h (List.mem_cons_of_mem _ hm))]
      exact dictGet_insert_ne tn t key _ (fun he => h (he ▸ List.mem_cons_self _ _))

/-- The `visit_TempsBlockNode` loop maps the k-th handle (for distinct
handles) to `$blk_(idx+k)`: slot indices count up from `idx`. -/
theorem assignTemps_lookup : ∀ (temps : List Nat) (tn : List (Nat × String))
    (blk idx k : Nat), temps.Nodup → k < temps.length →
    dictGet (assignTemps tn blk idx temps) (temps.getD k 0) =
      some (tempName blk (idx + k)) := by
  intro temps
  induction temps with
  | nil =>
      intro tn blk idx k _ hk
      exact absurd hk (by simp)
  | cons t rest ih =>
      intro tn blk idx k hnodup hk
      simp only [List.nodup_cons] at hnodup
      cases k with
      | zero =>
          simp only [assignTemps, List.getD_cons_zero, Nat.add_zero]
          rw [assignTemps_lookup_notmem rest _ blk (idx + 1) t hnodup.1]
          exact dictGet_insert_self tn t _
      | succ k2 =>
          simp only [assignTemps, List.getD_cons_succ]
          rw [ih _ blk (idx + 1) k2 hnodup.2 (by simp at hk; omega)]
          have harith : idx + 1 + k2 = idx + (k2 + 1) := by omega
          rw [harith]

/-! ### Helper lemmas for stating and evaluating the claims -/

@[simp] theorem WState.put_put (w : WState) (a b : String) :
    (w.put a).put b = w.put (a ++ b) := by
  simp [WState.put, LinesResult.put, String.append_assoc]

@[simp] theorem indentOf_zero : indentOf 0 = "" := rfl

@[simp] theorem empty_append_str (t : String) : "" ++ t = t := by
  cases t
  rfl

@[simp] theorem containerHeader_result_s (s : WState) (decl name : String)
    (cname : Option String) (extras : String) :
    (containerHeader s decl name cname extras).result.s = "" := by
  unfold containerHeader
  repeat' split
  all_goals simp [WState.endline, WState.indent, LinesResult.putline, LinesResult.put,
    LinesResult.newline]

/-! ### The claims -/

/-- C1: an AST node whose concrete kind has no rendering rule at any level of
the visitor hierarchy falls through to the generic `visit_Node` rule, which
aborts the whole traversal with an error naming the unhandled node; it never
produces a normal (`ok`) result, so nothing is silently skipped and no
placeholder text is emitted. -/
theorem unhandled_node_aborts (s : WState) (reprText : String) :
    cwVisit s (.unhandledNode reprText) =
      .error ("Node not handled by serializer: " ++ reprText) ∧
    ∀ s' : WState, cwVisit s (.unhandledNode reprText) ≠ .ok s' := by
  constructor
  · simp only [cwVisit]
  · intro s' hok
    simp only [cwVisit] at hok
    exact Except.noConfusion hok

/-- C2: visiting an empty statement-list node appends exactly one committed
line, the no-op placeholder "pass" at the current indent; visiting a
non-empty one renders the first child and then the remaining children in
list order, with no separator text between them. -/
theorem statlist_spec (s : WState) (stats : List Node) :
    (stats = [] → cwVisit s (.StatListNode stats) =
        .ok { s with result := { lines := s.result.lines ++
                [s.result.s ++ indentOf s.numindents ++ "pass"], s := "" } }) ∧
    (∀ a rest, stats = a :: rest → cwVisit s (.StatListNode stats) =
        (cwVisit s a).bind (fun s1 => visitList s1 rest)) := by
  constructor
  · rintro rfl
    simp only [cwVisit, List.length_nil, if_pos]
    simp [WState.line, WState.startline, WState.endline, WState.put,
      LinesResult.put, LinesResult.putline, LinesResult.newline, String.append_assoc]
  · rintro a rest rfl
    simp only [cwVisit, List.length_cons]
    rw [if_neg (by omega)]
    simp only [visitList]
    rfl

theorem statlist_spec_witness :
    cwVisit initialState (.StatListNode []) =
      .ok { initialState with result := { lines := ["pass"], s := "" } } ∧
    cwVisit initialState (.StatListNode [.PassStatNode]) =
      (cwVisit initialState .PassStatNode).bind (fun s1 => visitList s1 []) := by
  constructor
  · have h := (statlist_spec initialState []).1 rfl
    rw [h]
    exact congrArg Except.ok (by decide)
  · exact (statlist_spec initialState [.PassStatNode]).2 .PassStatNode [] rfl

/-- C3 (code bug): `comma_separated_list` with `output_rhs=True` silently
drops the last item's default: the loop only emits " = default" for
`items[:-1]`, and `items[-1]` is merely visited.  A single declarator `x`
carrying default `1` thus renders as just "x" — no " = 1" suffix — although
the claim (and `visit_CVarDefNode`'s purpose) requires the suffix for every
item with a default. -/
theorem comma_separated_list_drops_last_default :
    commaSeparatedList initialState
        [Node.CNameDeclaratorNode "x" (some (Node.IntNode "1"))] true =
      .ok (initialState.put "x") := by
  simp only [commaSeparatedList, cwVisit]

/-- C4: within one traversal, a temps block visited at state `s` names its
k-th (distinct) handle `$<blockIndex>_<k>` with slots counted from 0, where
`blockIndex` is the current `tempblockindex`; the body is then visited with
the counter bumped to `tempblockindex + 1`, every rule only ever increases
the counter, and names with different block indices are never equal — so
names generated by two distinct blocks in traversal order never collide,
even when slot indices repeat. -/
theorem tempsblock_collision_free (s : WState) (temps : List Nat) (body : Node)
    (hnodup : temps.Nodup) :
    (∀ k, k < temps.length →
      dictGet (assignTemps s.tempnames s.tempblockindex 0 temps) (temps.getD k 0)
        = some (tempName s.tempblockindex k)) ∧
    cwVisit s (.TempsBlockNode temps body) =
      cwVisit { s with tempnames := assignTemps s.tempnames s.tempblockindex 0 temps,
                       tempblockindex := s.tempblockindex + 1 } body ∧
    (∀ (n : Node) (t t' : WState), cwVisit t n = .ok t' →
        t.tempblockindex ≤ t'.tempblockindex) ∧
    (∀ b b' j j' : Nat, b ≠ b' → tempName b j ≠ tempName b' j') ∧
    (∀ later j j' : Nat, s.tempblockindex < later →
        tempName s.tempblockindex j ≠ tempName later j') := by
  refine ⟨?_, ?_, ?_, ?_, ?_⟩
  · intro k hk
    simpa using assignTemps_lookup temps s.tempnames s.tempblockindex 0 k hnodup hk
  · simp only [cwVisit]
  · intro n t t' h
    exact (cwVisit_inv n t t' h).2
  · intro b b' j j' hb
    exact tempName_inj_blk hb
  · intro later j j' hlt
    exact tempName_inj_blk (by omega)

theorem tempsblock_collision_free_witness :
    dictGet (assignTemps initialState.tempnames initialState.tempblockindex 0 [5, 7]) 7
        = some (tempName 0 1) ∧
    tempName 0 0 ≠ tempName 1 0 := by
  have h := tempsblock_collision_free initialState [5, 7] .PassStatNode (by decide)
  refine ⟨?_, h.2.2.2.1 0 1 0 0 (by decide)⟩
  have h1 := h.1 1 (by decide)
  simpa [initialState] using h1

/-- C5: a general call node with keyword arguments or a double-splat argument
present never completes normally (no usable output is produced), and as soon
as the callee and positional arguments render, the traversal aborts with the
named unsupported-construct error "Not implemented yet". -/
theorem general_call_unsupported (s : WState) (f : Node) (posargs : GCArgs)
    (kw ss : Option Node) (hks : kw.isSome ∨ ss.isSome) :
    (∀ s' : WState, cwVisit s (.GeneralCallNode f posargs kw ss) ≠ .ok s') ∧
    (∀ s1 s3 : WState, cwVisit s f = .ok s1 →
      (match posargs with
       | .asTuple a => cwVisit (s1.put "(") a
       | .plain l => commaSeparatedList (s1.put "(") l false) = .ok s3 →
      cwVisit s (.GeneralCallNode f posargs kw ss) =
        .error "Not implemented yet") := by
  constructor
  · intro s' hok
    cases posargs with
    | asTuple a =>
        simp only [cwVisit, bindE_ok] at hok
        obtain ⟨s1, h1, s3, h3, h4⟩ := hok
        split at h4
        · exact Except.noConfusion h4
        · rename_i hcond
          exact hcond (by simpa using hks)
    | plain l =>
        simp only [cwVisit, bindE_ok] at hok
        obtain ⟨s1, h1, s3, h3, h4⟩ := hok
        split at h4
        · exact Except.noConfusion h4
        · rename_i hcond
          exact hcond (by simpa using hks)
  · intro s1 s3 h1 h3
    cases posargs with
    | asTuple a =>
        simp only at h3
        simp only [cwVisit]
        rw [h1]
        simp only [bindE_okE]
        rw [h3]
        simp only [bindE_okE]
        rw [if_pos (by simpa using hks)]
    | plain l =>
        simp only at h3
        simp only [cwVisit]
        rw [h1]
        simp only [bindE_okE]
        rw [h3]
        simp only [bindE_okE]
        rw [if_pos (by simpa using hks)]

theorem general_call_unsupported_witness :
    cwVisit initialState
        (.GeneralCallNode (.NameNode "f") (.plain []) (some .NoneNode) none) =
      .error "Not implemented yet" := by
  have h := general_call_unsupported initialState (.NameNode "f") (.plain [])
      (some .NoneNode) none (Or.inl rfl)
  exact h.2 (initialState.put "f") ((initialState.put "f").put "(")
    (by simp only [cwVisit]) (by simp only [commaSeparatedList])

/-- C7: for every node of the tree, if its subtree visit completes normally,
the writer's indent-level counter has the same value immediately after the
visit as immediately before it. -/
theorem indent_balance (n : Node) (s s' : WState) (h : cwVisit s n = .ok s') :
    s'.numindents = s.numindents :=
  (cwVisit_inv n s s' h).1

theorem indent_balance_witness :
    ({ result := { lines := ["pass"], s := "" }, numindents := 0, tempnames := [],
       tempblockindex := 0 } : WState).numindents = initialState.numindents := by
  refine indent_balance .PassStatNode initialState _ ?_
  simp only [cwVisit]
  exact congrArg Except.ok (by decide)

/-- C8: the declarations-only writer's function rule returns immediately for
a function whose modifier list contains "inline": the writer state — and in
particular the buffer's line sequence — is completely unchanged (zero output
lines). -/
theorem pxd_inline_skipped (s : WState) (modifiers : List String)
    (overridable : Bool) (visibility : String) (api : Bool) (declarator : Node)
    (h : "inline" ∈ modifiers) :
    pxdVisitCFuncDefNode s modifiers overridable visibility api declarator =
      .ok s := by
  simp [pxdVisitCFuncDefNode, h]

theorem pxd_inline_skipped_witness :
    pxdVisitCFuncDefNode initialState ["inline"] false "private" false .NoneNode =
      .ok initialState :=
  pxd_inline_skipped initialState ["inline"] false "private" false .NoneNode
    (by simp)

/-- C9: a container definition with an absent or empty attribute list renders
its body as exactly one indented "pass" line after the header (the in-progress
line ends empty and the indent is restored); with attributes present, each
attribute is rendered in order inside the indented body. -/
theorem container_spec (s : WState) (decl name : String) (cname : Option String)
    (extras : String) (attrs : Option (List Node)) :
    ((attrs = none ∨ attrs = some []) →
      visitContainerNode s decl name cname extras attrs =
        .ok { s with result := { lines :=
                (containerHeader s decl name cname extras).result.lines ++
                  [indentOf (s.numindents + 1) ++ "pass"], s := "" } }) ∧
    (∀ a rest, attrs = some (a :: rest) →
      visitContainerNode s decl name cname extras attrs =
        (visitList (containerHeader s decl name cname extras) (a :: rest)).map
          (fun s5 => s5.dedent)) := by
  constructor
  · rintro (rfl | rfl) <;>
      (simp only [visitContainerNode]
       refine congrArg Except.ok ?_
       simp [WState.putline, WState.dedent, LinesResult.putline, LinesResult.put,
         LinesResult.newline])
  · rintro a rest rfl
    simp only [visitContainerNode]
    cases hv : visitList (containerHeader s decl name cname extras) (a :: rest) with
    | error e => simp [hv, Except.map, Bind.bind, Except.bind]
    | ok s5 => simp [hv, Except.map, Bind.bind, Except.bind]

theorem container_spec_witness :
    visitContainerNode initialState "cdef struct" "S" none "" none =
      .ok { initialState with
            result := { lines := (containerHeader initialState "cdef struct" "S" none "").result.lines ++ [indentOf 1 ++ "pass"],
                        s := "" } } := by
  have h := (container_spec initialState "cdef struct" "S" none "" none).1 (Or.inl rfl)
  rw [h]
  exact congrArg Except.ok (by decide)

/-- C10: list and tuple literals render the opening bracket, every element
followed by "," (the last included), then the closing bracket; so the empty
list is "[]", the empty tuple "()", and a one-element tuple "(<elem>,)". -/
theorem list_tuple_trailing_comma (s : WState) (args : List Node) :
    cwVisit s (.ListNode args) =
        (visitArgsComma (s.put "[") args).map (fun s1 => s1.put "]") ∧
    cwVisit s (.TupleNode args) =
        (visitArgsComma (s.put "(") args).map (fun s1 => s1.put ")") ∧
    cwVisit s (.ListNode []) = .ok (s.put "[]") ∧
    cwVisit s (.TupleNode []) = .ok (s.put "()") ∧
    (∀ nm : String, cwVisit s (.TupleNode [.NameNode nm]) =
        .ok (s.put ("(" ++ nm ++ ",)"))) := by
  have hmap : ∀ (t : String) (l : List Node) (w : WState) (u : String),
      (do
        let s1 ← visitArgsComma (w.put t) l
        Except.ok (s1.put u)) =
      (visitArgsComma (w.put t) l).map (fun s1 => s1.put u) := by
    intro t l w u
    cases hv : visitArgsComma (w.put t) l with
    | error e => simp [hv, Except.map, Bind.bind, Except.bind]
    | ok s5 => simp [hv, Except.map, Bind.bind, Except.bind]
  refine ⟨?_, ?_, ?_, ?_, ?_⟩
  · simp only [cwVisit]
    exact hmap "[" args s "]"
  · simp only [cwVisit]
    exact hmap "(" args s ")"
  · simp only [cwVisit, visitArgsComma, bindE_okE]
    have : ("[" : String) ++ "]" = "[]" := by decide
    simp [this]
  · simp only [cwVisit, visitArgsComma, bindE_okE]
    have : ("(" : String) ++ ")" = "()" := by decide
    simp [this]
  · intro nm
    simp only [cwVisit, visitArgsComma, bindE_okE, WState.put_put]
    have h2 : ("," : String) ++ ")" = ",)" := by decide
    simp [String.append_assoc, h2]

/-- C6 (code bug): rendering the chained comparison `a < b` with a cascade
link carrying operator ">" and operand `c` re-puts the captured HEAD operator
"<" (with no surrounding spaces) for the link instead of the link's own
operator: the output is "a < b<c", not the cascade's "> c". -/
theorem primary_cmp_reuses_head_operator :
    cwVisit initialState
        (.PrimaryCmpNode "<" (.NameNode "a") (.NameNode "b")
          (some (.mk ">" (.NameNode "c") none))) =
      .ok (initialState.put "a < b<c") := by
  simp only [cwVisit, visitCascade, bindE_okE, WState.put_put]
  have : ("" : String) ++ "a" ++ " " ++ "<" ++ " " ++ "b" ++ "<" ++ "c" = "a < b<c" := by
    decide
  simp [initialState, WState.put, LinesResult.put]

end CodeWriterModel
